import Mathlib

/-!
Verification of the AdaParse CLI utilities (`src/adaparse/cli.py`,
`src/adaparse/run.py`) against their natural-language specification.

Records of JSONL files are modelled as opaque strings (the rebalancer is
content-agnostic); a JSONL file is a `List String` of its lines; a
directory is the `List` of its globbed files in discovery order.
Filesystem and process effects are modelled as explicit event traces.
Python `int` parameters are modelled as `Int`; Python exceptions as the
`PyError` type, with one constructor per exception class.
-/

namespace AdaParse

/-- Python exceptions that the modelled code can raise: `ValueError`
(raised literally in `cli.py`) and the spec taxonomy's
`ConfigurationError`. -/
inductive PyError where
  | valueError (msg : String)
  | configurationError (msg : String)
deriving DecidableEq, Repr

/-- Tests whether an `Except` result is an error carrying a
`ConfigurationError`. -/
def raisedConfigurationError {α : Type} : Except PyError α → Bool
  | .error (.configurationError _) => true
  | _ => false

/-- Split a list into consecutive chunks of size `k` (the final chunk
holds the remainder).  This is the contiguous partition of the record
stream described by the spec's rebalancing algorithm (step 2) and by
`batch_data` used in `cli.py`'s `zip_pdfs`. -/
def chunkListF {α : Type} (k : Nat) : Nat → List α → List (List α)
  | _, [] => []
  | 0, _ :: _ => []
  | fuel + 1, x :: rest =>
    (x :: rest).take k :: chunkListF k fuel ((x :: rest).drop k)

def chunkList {α : Type} (k : Nat) (xs : List α) : List (List α) :=
  chunkListF k xs.length xs

/-- The fuel argument of `chunkListF` is irrelevant once it covers the
list length. -/
theorem chunkListF_congr {α : Type} (k : Nat) (hk : k ≠ 0) :
    ∀ (f1 f2 : Nat) (xs : List α), xs.length ≤ f1 → xs.length ≤ f2 →
      chunkListF k f1 xs = chunkListF k f2 xs := by
  intro f1
  induction f1 with
  | zero =>
    intro f2 xs h1 _
    match xs, h1 with
    | [], _ =>
      cases f2 <;> rfl
  | succ f ih =>
    intro f2 xs h1 h2
    match xs with
    | [] => cases f2 <;> rfl
    | x :: rest =>
      match f2, h2 with
      | f2 + 1, _ =>
        simp only [chunkListF]
        rw [ih f2 ((x :: rest).drop k)]
        · simp only [List.length_drop, List.length_cons] at *
          omega
        · simp only [List.length_drop, List.length_cons] at *
          omega

theorem chunkList_nil {α : Type} (k : Nat) : chunkList k ([] : List α) = [] :=
  rfl

theorem chunkList_cons {α : Type} (k : Nat) (hk : k ≠ 0) (xs : List α) (hx : xs ≠ []) :
    chunkList k xs = xs.take k :: chunkList k (xs.drop k) := by
  match xs, hx with
  | x :: rest, _ =>
    show chunkListF k (rest.length + 1) (x :: rest) = _
    simp only [chunkListF]
    rw [chunkList, chunkListF_congr k hk rest.length ((x :: rest).drop k).length
      ((x :: rest).drop k)]
    · simp only [List.length_drop, List.length_cons]
      omega
    · exact Nat.le_refl _

/-- Joining the chunks recovers the original list: no element is
duplicated, dropped, or mutated. -/
theorem chunkList_flatten {α : Type} (k : Nat) (hk : 1 ≤ k) :
    (xs : List α) → (chunkList k xs).flatten = xs
  | xs => by
    by_cases hx : xs = []
    · subst hx; simp [chunkList_nil]
    · rw [chunkList_cons k (by omega) xs hx]
      have ih := chunkList_flatten k hk (xs.drop k)
      simp [ih]
termination_by xs => xs.length
decreasing_by
  simp_wf
  exact ⟨List.length_pos.mpr hx, by omega⟩

/-- Arithmetic step for the chunk-count lemma: one chunk of size `k`
removed from a non-empty list advances the ceiling-division count by
one. -/
theorem ceil_div_step (k n : Nat) (hk : 1 ≤ k) (hn : 1 ≤ n) :
    (n - k + k - 1) / k + 1 = (n + k - 1) / k := by
  by_cases hnk : k < n
  · obtain ⟨m, hm⟩ : ∃ m, n - 1 = k + m := ⟨n - 1 - k, by omega⟩
    have h2 : n - k + k - 1 = k * 1 + m := by omega
    have h3 : n + k - 1 = k * 2 + m := by omega
    rw [h2, h3, Nat.mul_add_div (by omega), Nat.mul_add_div (by omega)]
    omega
  · have l1 : (n - k + k - 1) / k = 0 := Nat.div_eq_of_lt (by omega)
    have h3 : n + k - 1 = k * 1 + (n - 1) := by omega
    have l2 : (n + k - 1) / k = 1 := by
      rw [h3, Nat.mul_add_div (by omega), Nat.div_eq_of_lt (by omega)]
    omega

/-- The number of chunks is `⌈xs.length / k⌉`, written with natural
division as `(xs.length + k - 1) / k`. -/
theorem chunkList_length {α : Type} (k : Nat) (hk : 1 ≤ k) :
    (xs : List α) → (chunkList k xs).length = (xs.length + k - 1) / k
  | xs => by
    by_cases hx : xs = []
    · subst hx
      simp only [chunkList_nil, List.length_nil]
      rw [Nat.div_eq_of_lt (by omega)]
    · rw [chunkList_cons k (by omega) xs hx]
      have ih := chunkList_length k hk (xs.drop k)
      have hn : 1 ≤ xs.length := List.length_pos.mpr hx
      simp only [List.length_cons, List.length_drop] at ih ⊢
      rw [ih]
      exact ceil_div_step k xs.length hk hn
termination_by xs => xs.length
decreasing_by
  simp_wf
  exact ⟨List.length_pos.mpr hx, by omega⟩

/-- Chunk `i` is exactly the contiguous slice of the input starting at
index `k * i` (and `[]` past the end). -/
theorem chunkList_getD {α : Type} (k : Nat) (hk : 1 ≤ k) :
    (xs : List α) → (i : Nat) →
      (chunkList k xs).getD i [] = (xs.drop (k * i)).take k
  | xs, i => by
    by_cases hx : xs = []
    · subst hx; simp [chunkList_nil]
    · rw [chunkList_cons k (by omega) xs hx]
      match i with
      | 0 => simp
      | j + 1 =>
        have ih := chunkList_getD k hk (xs.drop k) j
        simp only [List.getD_cons_succ]
        rw [ih, List.drop_drop]
        have e : k + k * j = k * (j + 1) := by ring
        rw [e]
termination_by xs => xs.length
decreasing_by
  simp_wf
  exact ⟨List.length_pos.mpr hx, by omega⟩

/-- Every chunk has at most `k` elements. -/
theorem chunkList_mem_length_le {α : Type} (k : Nat) (hk : 1 ≤ k) :
    (xs : List α) → ∀ b ∈ chunkList k xs, b.length ≤ k
  | xs => by
    by_cases hx : xs = []
    · subst hx; simp [chunkList_nil]
    · rw [chunkList_cons k (by omega) xs hx]
      intro b hb
      rcases List.mem_cons.mp hb with h | h
      · subst h
        simp only [List.length_take]
        omega
      · exact chunkList_mem_length_le k hk (xs.drop k) b h
termination_by xs => xs.length
decreasing_by
  simp_wf
  exact ⟨List.length_pos.mpr hx, by omega⟩

/-- A chunking of a non-empty list is non-empty. -/
theorem chunkList_ne_nil {α : Type} (k : Nat) (hk : 1 ≤ k) (xs : List α)
    (hx : xs ≠ []) : chunkList k xs ≠ [] := by
  rw [chunkList_cons k (by omega) xs hx]
  exact List.cons_ne_nil _ _

/-- If chunk `i` is not the last one, at least `k * (i + 1)` elements
exist. -/
theorem lt_of_succ_lt_ceil (k n i : Nat) (hk : 1 ≤ k)
    (h : i + 1 < (n + k - 1) / k) : k * (i + 1) < n := by
  have h2 : i + 2 ≤ (n + k - 1) / k := h
  have h3 : (i + 2) * k ≤ n + k - 1 := (Nat.le_div_iff_mul_le (by omega)).mp h2
  have h4 : (i + 2) * k = (i + 1) * k + k := by ring
  have h5 : k * (i + 1) = (i + 1) * k := by ring
  omega

/-- The final chunk holds the remainder: `xs.length mod k` elements, or
`k` when `k` divides `xs.length` evenly. -/
theorem chunkList_getLast_length {α : Type} (k : Nat) (hk : 1 ≤ k) :
    (xs : List α) → (hx : xs ≠ []) → ∀ l, (chunkList k xs).getLast? = some l →
      l.length = if xs.length % k = 0 then k else xs.length % k
  | xs, hx => by
    intro l hl
    rw [chunkList_cons k (by omega) xs hx] at hl
    have hn : 0 < xs.length := List.length_pos.mpr hx
    by_cases hd : xs.drop k = []
    · have hnk : xs.length ≤ k := List.drop_eq_nil_iff.mp hd
      rw [hd, chunkList_nil] at hl
      simp only [List.getLast?_cons, List.getLast?_nil, Option.getD_none,
        Option.some.injEq] at hl
      subst hl
      simp only [List.length_take]
      by_cases heq : xs.length = k
      · rw [heq]
        simp
      · have hlt : xs.length < k := by omega
        rw [Nat.mod_eq_of_lt hlt, if_neg (by omega)]
        omega
    · have hrec := chunkList_ne_nil k hk (xs.drop k) hd
      match hc : chunkList k (xs.drop k) with
      | [] => exact absurd hc hrec
      | c :: cs =>
        rw [hc, List.getLast?_cons_cons] at hl
        have ih := chunkList_getLast_length k hk (xs.drop k) hd l
          (by rw [hc]; exact hl)
        have hkn : k ≤ xs.length := by
          by_contra hcon
          exact hd (List.drop_eq_nil_of_le (by omega))
        have hmod : (xs.drop k).length % k = xs.length % k := by
          simp only [List.length_drop]
          exact (Nat.mod_eq_sub_mod hkn).symm
        rw [ih, hmod]
termination_by xs => xs.length
decreasing_by
  simp_wf
  exact ⟨List.length_pos.mpr hx, by omega⟩

section Balance

/-- Effects of the balance command, in program order: the two
`typer.echo` calls of `cli.py`, creating the output directory, and
writing output shard `i` with its lines. -/
inductive BalanceEvent where
  | echoOutputDir
  | echoFileCount
  | createOutputDir
  | writeShard (i : Nat) (lines : List String)
deriving DecidableEq, Repr

/-- Modelled from the spec: `balance_jsonl_files` (module
`adaparse.balance`) is called by `cli.py` but its source is not under
`src/`.  Per the spec's §4.1 contract and algorithm it validates
`lines_per_file ≥ 1` — failing with `ConfigurationError` before any
output is created otherwise — then creates the output directory,
partitions the concatenated record stream into contiguous ranges of
`lines_per_file` records, and writes each range as one output shard. -/
def balance_jsonl_files (jsonl_files : List (List String))
    (lines_per_file : Int) :
    List BalanceEvent × Except PyError (List (List String)) :=
  if lines_per_file < 1 then
    ([], .error (.configurationError "lines_per_file must be a positive integer"))
  else
    let chunks := chunkList lines_per_file.toNat jsonl_files.flatten
    (BalanceEvent.createOutputDir ::
       (chunks.enum.map fun q => BalanceEvent.writeShard q.1 q.2),
     .ok chunks)

/-- The `balance_jsonl` command from `src/adaparse/cli.py`: the globbed `*.jsonl`
files are given as the list of their line contents in discovery order;
when none are found a `ValueError` is raised before anything else
happens, otherwise two messages are echoed and `balance_jsonl_files`
runs. -/
def balance_jsonl (jsonl_files : List (List String)) (lines_per_file : Int) :
    List BalanceEvent × Except PyError (List (List String)) :=
  if jsonl_files.isEmpty then
    ([], .error (.valueError "No JSONL files found in the input directory."))
  else
    let r := balance_jsonl_files jsonl_files lines_per_file
    (BalanceEvent.echoOutputDir :: BalanceEvent.echoFileCount :: r.1, r.2)

theorem balance_jsonl_ok (jsonl_files : List (List String))
    (lines_per_file : Int) (h1 : jsonl_files ≠ []) (h2 : 1 ≤ lines_per_file) :
    (balance_jsonl jsonl_files lines_per_file).2 =
      .ok (chunkList lines_per_file.toNat jsonl_files.flatten) := by
  rw [balance_jsonl]
  rw [if_neg (by simp [h1])]
  rw [balance_jsonl_files, if_neg (by omega)]

/-- C1: for every non-empty set of input JSONL files and every
`lines_per_file ≥ 1`, the rebalancer succeeds and the multiset of lines
across all output files equals the multiset of lines across all input
files — no line is duplicated, dropped, or mutated (here even the
concatenation is preserved exactly). -/
theorem balance_preserves_records (jsonl_files : List (List String))
    (lines_per_file : Int) (h1 : jsonl_files ≠ []) (h2 : 1 ≤ lines_per_file) :
    ∃ outs, (balance_jsonl jsonl_files lines_per_file).2 = .ok outs ∧
      outs.flatten = jsonl_files.flatten ∧
      Multiset.ofList outs.flatten = Multiset.ofList jsonl_files.flatten := by
  refine ⟨chunkList lines_per_file.toNat jsonl_files.flatten,
    balance_jsonl_ok jsonl_files lines_per_file h1 h2, ?_, ?_⟩
  · exact chunkList_flatten _ (by omega) _
  · rw [chunkList_flatten _ (by omega)]

/-- C1 witness: two input files with lines `a b c` and `d e`,
rebalanced at 2 lines per file. -/
theorem balance_preserves_records_witness :
    ∃ outs, (balance_jsonl [["a", "b", "c"], ["d", "e"]] 2).2 = .ok outs ∧
      outs.flatten = ([["a", "b", "c"], ["d", "e"]] : List (List String)).flatten ∧
      Multiset.ofList outs.flatten =
        Multiset.ofList ([["a", "b", "c"], ["d", "e"]] : List (List String)).flatten :=
  balance_preserves_records [["a", "b", "c"], ["d", "e"]] 2 (by decide) (by decide)

/-- C2: with `total` the number of input lines, the rebalancer creates
exactly `⌈total / lines_per_file⌉` output files; output file `i` is the
contiguous slice of the concatenated input stream starting at line
`lines_per_file * i`; every file except the final one holds exactly
`lines_per_file` lines; the final one holds `total mod lines_per_file`
lines, or `lines_per_file` when `total` is evenly divisible. -/
theorem balance_output_shape (jsonl_files : List (List String))
    (lines_per_file : Int) (h1 : jsonl_files ≠ []) (h2 : 1 ≤ lines_per_file) :
    ∃ outs, (balance_jsonl jsonl_files lines_per_file).2 = .ok outs ∧
      outs.length =
        (jsonl_files.flatten.length + lines_per_file.toNat - 1) /
          lines_per_file.toNat ∧
      (∀ i, i < outs.length →
        outs.getD i [] =
          (jsonl_files.flatten.drop (lines_per_file.toNat * i)).take
            lines_per_file.toNat) ∧
      (∀ i, i + 1 < outs.length →
        (outs.getD i []).length = lines_per_file.toNat) ∧
      (∀ l, outs.getLast? = some l →
        l.length =
          if jsonl_files.flatten.length % lines_per_file.toNat = 0
          then lines_per_file.toNat
          else jsonl_files.flatten.length % lines_per_file.toNat) := by
  set k := lines_per_file.toNat with hkdef
  have hk : 1 ≤ k := by omega
  set xs := jsonl_files.flatten with hxsdef
  refine ⟨chunkList k xs, balance_jsonl_ok jsonl_files lines_per_file h1 h2,
    chunkList_length k hk xs, fun i _ => chunkList_getD k hk xs i, ?_, ?_⟩
  · intro i hi
    rw [chunkList_length k hk xs] at hi
    have hlt : k * (i + 1) < xs.length := lt_of_succ_lt_ceil k xs.length i hk hi
    rw [chunkList_getD k hk xs i]
    simp only [List.length_take, List.length_drop]
    have he : k * (i + 1) = k * i + k := by ring
    exact Nat.min_eq_left (by omega)
  · intro l hl
    by_cases hxs : xs = []
    · rw [hxs, chunkList_nil] at hl
      simp at hl
    · exact chunkList_getLast_length k hk xs hxs l hl

/-- C2 witness: 7 input lines at 3 lines per file give
`⌈7/3⌉ = 3` output files of sizes 3, 3 and `7 mod 3 = 1`. -/
theorem balance_output_shape_witness :
    ∃ outs,
      (balance_jsonl [["a", "b", "c", "d", "e"], ["f", "g"]] 3).2 = .ok outs ∧
      outs.length =
        (([["a", "b", "c", "d", "e"], ["f", "g"]] : List (List String)).flatten.length + (3 : Int).toNat - 1) /
          (3 : Int).toNat ∧
      (∀ i, i < outs.length →
        outs.getD i [] =
          (([["a", "b", "c", "d", "e"], ["f", "g"]] : List (List String)).flatten.drop
            ((3 : Int).toNat * i)).take (3 : Int).toNat) ∧
      (∀ i, i + 1 < outs.length →
        (outs.getD i []).length = (3 : Int).toNat) ∧
      (∀ l, outs.getLast? = some l →
        l.length =
          if ([["a", "b", "c", "d", "e"], ["f", "g"]] : List (List String)).flatten.length % (3 : Int).toNat = 0
          then (3 : Int).toNat
          else ([["a", "b", "c", "d", "e"], ["f", "g"]] : List (List String)).flatten.length % (3 : Int).toNat) :=
  balance_output_shape [["a", "b", "c", "d", "e"], ["f", "g"]] 3
    (by decide) (by decide)

/-- C4 counterexample: on an empty input directory `balance_jsonl`
raises a `ValueError` (`cli.py` line 47), not a `ConfigurationError`;
the claim names the wrong exception class. -/
theorem empty_input_raises_value_error :
    balance_jsonl ([] : List (List String)) 1000 =
      ([], .error (.valueError "No JSONL files found in the input directory.")) ∧
    raisedConfigurationError (balance_jsonl ([] : List (List String)) 1000).2 =
      false :=
  ⟨rfl, rfl⟩

/-- C4 amended: for every input directory containing no `*.jsonl`
files, `balance_jsonl` raises an error (a `ValueError`) before any work
begins: no message is echoed, no output directory or file is created,
and `balance_jsonl_files` is never invoked (the event trace is empty
and the result is the `ValueError` raised by the glob check, which
`balance_jsonl_files` can never produce). -/
theorem empty_input_fails_before_work (lines_per_file : Int) :
    balance_jsonl ([] : List (List String)) lines_per_file =
      ([], .error (.valueError "No JSONL files found in the input directory.")) :=
  rfl

/-- C6: calling the balance operation with `lines_per_file < 1` fails
with a `ConfigurationError` and produces no event — in particular no
output file is created. -/
theorem nonpositive_lines_per_file_rejected (jsonl_files : List (List String))
    (lines_per_file : Int) (h : lines_per_file < 1) :
    balance_jsonl_files jsonl_files lines_per_file =
      ([], .error (.configurationError
        "lines_per_file must be a positive integer")) ∧
    raisedConfigurationError
      (balance_jsonl_files jsonl_files lines_per_file).2 = true := by
  constructor
  · rw [balance_jsonl_files, if_pos h]
  · rw [balance_jsonl_files, if_pos h]
    rfl

/-- C6 witness: `lines_per_file = 0` on a one-file input. -/
theorem nonpositive_lines_per_file_rejected_witness :
    balance_jsonl_files [["x"]] 0 =
      ([], .error (.configurationError
        "lines_per_file must be a positive integer")) ∧
    raisedConfigurationError (balance_jsonl_files [["x"]] 0).2 = true :=
  nonpositive_lines_per_file_rejected [["x"]] 0 (by decide)

end Balance

section ZipPdfs

/-- Output zip file name for chunk `i`, as built by `zip_pdfs` in
`src/adaparse/cli.py`. -/
def zipName (i : Nat) : String := "chunk_" ++ toString i ++ ".zip"

/-- Modelled from the spec: `batch_data` (module `adaparse.utils`) is
called by `cli.py` but its source is not under `src/`.  Per the spec
(§6, §8) it splits the found PDF list into consecutive chunks of up to
`chunk_size` files each, `ceil(n / chunk_size)` chunks in all. -/
def batch_data (data : List String) (chunk_size : Nat) : List (List String) :=
  chunkList chunk_size data

/-- The manifest written by `zip_pdfs` in `src/adaparse/cli.py`: the
dict comprehension over `zip(output_files, batched_data)` with
`output_files = [output_dir / f'chunk_{i}.zip' for i in range(len(batched_data))]`,
kept as an association list in insertion order (paths relative to the
output directory stand in for resolved paths). -/
def zip_manifest (pdf_files : List String) (chunk_size : Nat) :
    List (String × List String) :=
  ((List.range (batch_data pdf_files chunk_size).length).map zipName).zip
    (batch_data pdf_files chunk_size)

/-- Zipping an index-named list with the list itself is enumeration. -/
theorem zip_range'_map_eq_enumFrom {α β : Type} (f : Nat → β) :
    ∀ (l : List α) (n : Nat),
      ((List.range' n l.length).map f).zip l =
        (l.enumFrom n).map fun q => (f q.1, q.2)
  | [], _ => rfl
  | x :: xs, n => by
    simp only [List.length_cons, List.range'_succ, List.map_cons, List.zip_cons_cons,
      List.enumFrom_cons]
    rw [zip_range'_map_eq_enumFrom f xs (n + 1)]

/-- Normal form of the manifest: entry `i` pairs `chunk_<i>.zip` with
batch `i`. -/
theorem zip_manifest_eq (pdf_files : List String) (chunk_size : Nat) :
    zip_manifest pdf_files chunk_size =
      (batch_data pdf_files chunk_size).enum.map fun q => (zipName q.1, q.2) := by
  unfold zip_manifest
  rw [List.range_eq_range', zip_range'_map_eq_enumFrom, List.enum_eq_enumFrom]

/-- Counting batches by a predicate on the batch ignores enumeration
indices. -/
theorem countP_enumFrom_snd {α : Type} (p : α → Bool) :
    ∀ (l : List α) (n : Nat),
      (l.enumFrom n).countP (fun q => p q.2) = l.countP p
  | [], _ => rfl
  | x :: xs, n => by
    simp only [List.enumFrom_cons, List.countP_cons]
    rw [countP_enumFrom_snd p xs (n + 1)]

/-- In a duplicate-free flattened family, an element of the flattening
lies in exactly one member list. -/
theorem countP_eq_one_of_nodup_flatten {α : Type} [DecidableEq α] (p : α) :
    ∀ (L : List (List α)), L.flatten.Nodup → p ∈ L.flatten →
      L.countP (fun b => decide (p ∈ b)) = 1
  | [] => by simp
  | b :: L => by
    intro hnd hp
    simp only [List.flatten_cons] at hnd hp
    rw [List.nodup_append] at hnd
    obtain ⟨h1, h2, hdisj⟩ := hnd
    rw [List.countP_cons]
    by_cases hb : p ∈ b
    · have hnotin : p ∉ L.flatten := fun hin => hdisj hb hin
      have hz : L.countP (fun c => decide (p ∈ c)) = 0 := by
        rw [List.countP_eq_zero]
        intro c hc hpc
        simp only [decide_eq_true_eq] at hpc
        exact hnotin (List.mem_flatten.mpr ⟨c, hc, hpc⟩)
      simp [hz, hb]
    · have hpL : p ∈ L.flatten := by
        rcases List.mem_append.mp hp with h | h
        · exact absurd h hb
        · exact h
      have hrec := countP_eq_one_of_nodup_flatten p L h2 hpL
      simp [hrec, hb]

/-- C3: on `n ≥ 1` found PDFs (distinct paths, as produced by a glob)
and `chunk_size ≥ 1`, `zip_pdfs` plans `⌈n / chunk_size⌉` zip files;
manifest entry `i` maps the name `chunk_<i>.zip` to exactly its member
batch — the consecutive slice of the found PDFs starting at
`chunk_size * i` — every batch has at most `chunk_size` members, the
batches concatenate back to exactly the found PDF list, and each PDF
path appears under exactly one manifest key. -/
theorem zip_pdfs_manifest_correct (pdf_files : List String) (chunk_size : Nat)
    (h1 : pdf_files ≠ []) (h2 : 1 ≤ chunk_size) (h3 : pdf_files.Nodup) :
    (zip_manifest pdf_files chunk_size).length =
      (pdf_files.length + chunk_size - 1) / chunk_size ∧
    (∀ e ∈ zip_manifest pdf_files chunk_size, e.2.length ≤ chunk_size) ∧
    (∀ i, i < (zip_manifest pdf_files chunk_size).length →
      (zip_manifest pdf_files chunk_size).getD i ("", []) =
        (zipName i, (pdf_files.drop (chunk_size * i)).take chunk_size)) ∧
    ((zip_manifest pdf_files chunk_size).map Prod.snd).flatten = pdf_files ∧
    (∀ p ∈ pdf_files,
      (zip_manifest pdf_files chunk_size).countP
        (fun e => decide (p ∈ e.2)) = 1) := by
  rw [zip_manifest_eq]
  unfold batch_data
  have hflat : (chunkList chunk_size pdf_files).flatten = pdf_files :=
    chunkList_flatten chunk_size h2 pdf_files
  refine ⟨?_, ?_, ?_, ?_, ?_⟩
  · simp only [List.length_map, List.enum_eq_enumFrom, List.enumFrom_length]
    exact chunkList_length chunk_size h2 pdf_files
  · intro e he
    obtain ⟨q, hq, hqe⟩ := List.mem_map.mp he
    have hsnd : q.2 ∈ chunkList chunk_size pdf_files := by
      have := List.mem_map_of_mem Prod.snd hq
      rwa [List.enum_eq_enumFrom, List.enumFrom_map_snd] at this
    rw [← hqe]
    exact chunkList_mem_length_le chunk_size h2 pdf_files q.2 hsnd
  · intro i hi
    simp only [List.length_map, List.enum_eq_enumFrom, List.enumFrom_length] at hi
    have hgd := chunkList_getD chunk_size h2 pdf_files i
    rw [List.getD_eq_getElem?_getD] at hgd ⊢
    have hsome : (chunkList chunk_size pdf_files)[i]? =
        some ((pdf_files.drop (chunk_size * i)).take chunk_size) := by
      cases hx : (chunkList chunk_size pdf_files)[i]? with
      | none =>
        exfalso
        rw [List.getElem?_eq_none_iff] at hx
        exact absurd hi (by omega)
      | some v =>
        rw [hx] at hgd
        simp only [Option.getD_some] at hgd
        rw [hgd]
    simp only [List.getElem?_map, List.enum_eq_enumFrom, List.getElem?_enumFrom,
      hsome, Option.map_some', Option.getD_some, Nat.zero_add]
  · rw [List.map_map]
    have hcomp :
        (Prod.snd ∘ fun q : Nat × List String => (zipName q.1, q.2)) =
          Prod.snd := by
      funext q
      rfl
    rw [hcomp, List.enum_eq_enumFrom, List.enumFrom_map_snd]
    exact hflat
  · intro p hp
    rw [List.countP_map, List.enum_eq_enumFrom]
    have hc :
        ((fun e : String × List String => decide (p ∈ e.2)) ∘
          fun q : Nat × List String => (zipName q.1, q.2)) =
          fun q : Nat × List String => decide (p ∈ q.2) := by
      funext q
      rfl
    rw [hc]
    calc List.countP (fun q : Nat × List String => decide (p ∈ q.2))
          (List.enumFrom 0 (chunkList chunk_size pdf_files))
        = List.countP (fun b => decide (p ∈ b))
            (chunkList chunk_size pdf_files) :=
          countP_enumFrom_snd (fun b => decide (p ∈ b))
            (chunkList chunk_size pdf_files) 0
      _ = 1 :=
          countP_eq_one_of_nodup_flatten p (chunkList chunk_size pdf_files)
            (by rw [hflat]; exact h3) (by rw [hflat]; exact hp)

/-- Concrete test fixture: 25 distinct PDF paths. -/
def samplePdfs : List String :=
  ["p01.pdf", "p02.pdf", "p03.pdf", "p04.pdf", "p05.pdf",
   "p06.pdf", "p07.pdf", "p08.pdf", "p09.pdf", "p10.pdf",
   "p11.pdf", "p12.pdf", "p13.pdf", "p14.pdf", "p15.pdf",
   "p16.pdf", "p17.pdf", "p18.pdf", "p19.pdf", "p20.pdf",
   "p21.pdf", "p22.pdf", "p23.pdf", "p24.pdf", "p25.pdf"]

/-- C3 witness: 25 PDFs at `chunk_size = 10` give 3 zip files, a
3-entry manifest with batch sizes `[10, 10, 5]`, and every path under
exactly one key. -/
theorem zip_pdfs_manifest_correct_witness :
    ((zip_manifest samplePdfs 10).length =
        (samplePdfs.length + 10 - 1) / 10 ∧
      (∀ e ∈ zip_manifest samplePdfs 10, e.2.length ≤ 10) ∧
      (∀ i, i < (zip_manifest samplePdfs 10).length →
        (zip_manifest samplePdfs 10).getD i ("", []) =
          (zipName i, (samplePdfs.drop (10 * i)).take 10)) ∧
      ((zip_manifest samplePdfs 10).map Prod.snd).flatten = samplePdfs ∧
      (∀ p ∈ samplePdfs,
        (zip_manifest samplePdfs 10).countP
          (fun e => decide (p ∈ e.2)) = 1)) ∧
    (zip_manifest samplePdfs 10).length = 3 ∧
    (zip_manifest samplePdfs 10).map (fun e => e.2.length) = [10, 10, 5] :=
  ⟨zip_pdfs_manifest_correct samplePdfs 10 (by decide) (by decide) (by decide),
   by decide, by decide⟩

/-- Effects of `zip_pdfs` (`src/adaparse/cli.py`), in program order:
create the output directory, write `manifest.json`, then run one
`zip_worker(batch, output_file)` per chunk in the process pool. -/
inductive ZipEvent where
  | mkOutputDir
  | writeManifest (manifest : List (String × List String))
  | runZipWorker (batch : List String) (out : String)
deriving DecidableEq, Repr

/-- The `zip_pdfs` command from `src/adaparse/cli.py` as its trace of effects.
`zip_worker` itself (module `adaparse.utils`, not under `src/`) is kept
opaque: only its invocations are recorded. -/
def zip_pdfs (pdf_files : List String) (chunk_size : Nat) : List ZipEvent :=
  ZipEvent.mkOutputDir ::
    ZipEvent.writeManifest (zip_manifest pdf_files chunk_size) ::
    (((batch_data pdf_files chunk_size).zip
        ((List.range (batch_data pdf_files chunk_size).length).map zipName)).map
      fun q => ZipEvent.runZipWorker q.1 q.2)

/-- C9: whenever `zip_pdfs` finds at least one PDF, the complete
manifest — the full planned zip-to-PDF assignment — is written before
any zip worker runs: the trace starts with the directory creation and
the manifest write, and everything after is only `zip_worker` runs. -/
theorem manifest_written_before_workers (pdf_files : List String)
    (chunk_size : Nat) (h : pdf_files ≠ []) :
    ∃ workers, zip_pdfs pdf_files chunk_size =
      ZipEvent.mkOutputDir ::
        ZipEvent.writeManifest (zip_manifest pdf_files chunk_size) :: workers ∧
      ∀ ev ∈ workers, ∃ batch out, ev = ZipEvent.runZipWorker batch out := by
  refine ⟨_, rfl, ?_⟩
  intro ev hev
  obtain ⟨q, _, hq⟩ := List.mem_map.mp hev
  exact ⟨q.1, q.2, hq.symm⟩

/-- C9 witness: three PDFs at `chunk_size = 2`. -/
theorem manifest_written_before_workers_witness :
    ∃ workers, zip_pdfs ["a.pdf", "b.pdf", "c.pdf"] 2 =
      ZipEvent.mkOutputDir ::
        ZipEvent.writeManifest (zip_manifest ["a.pdf", "b.pdf", "c.pdf"] 2) ::
          workers ∧
      ∀ ev ∈ workers, ∃ batch out, ev = ZipEvent.runZipWorker batch out :=
  manifest_written_before_workers ["a.pdf", "b.pdf", "c.pdf"] 2 (by decide)

end ZipPdfs

section ParseTimers

/-- The timer-log scan loop of `parse_timers` (`src/adaparse/cli.py`
lines 95–97): `time_stats` accumulates `TimeLogger().parse_logs(path)`
over the globbed `*.stdout` files.  `TimeLogger` (module
`adaparse.timer`) is not under `src/` and is never invoked when the
glob is empty, so it is kept as an opaque function parameter. -/
def collectTimeStats {ρ : Type} (parseLogs : String → List ρ)
    (stdout_files : List String) : List ρ :=
  stdout_files.flatMap parseLogs

/-- The `parse_timers` command from `src/adaparse/cli.py` as its result: the CSV is
written unconditionally (`pd.DataFrame(time_stats).to_csv(csv_path)`);
`some rows` records that the file was written, without error, holding
exactly `rows` as its data rows. -/
def parse_timers {ρ : Type} (parseLogs : String → List ρ)
    (stdout_files : List String) : Option (List ρ) :=
  some (collectTimeStats parseLogs stdout_files)

/-- C7: when `run_path/parsl/000/submit_scripts` holds no `*.stdout`
files, `parse_timers` completes without error and writes a CSV with
zero data rows, whatever the timer-log parsing function does. -/
theorem parse_timers_empty_glob {ρ : Type} (parseLogs : String → List ρ) :
    parse_timers parseLogs [] = some [] :=
  rfl

end ParseTimers

section RunPy

/-- A parsed-document record as assembled in `parse_pdfs_in_batches`
(`src/adaparse/run.py` lines 123–127): exactly the keys `text`,
`last_page` and `parser`, with `parser` set to `'nougat'`. -/
structure NougatDocument where
  text : String
  last_page : Bool
  parser : String
deriving DecidableEq, Repr

/-- CPython `repr` of a string that needs no escaping, as `str(dict)`
applies to the keys and string values (`\x27` is the apostrophe). -/
def pyStrRepr (s : String) : String := "\x27" ++ s ++ "\x27"

/-- CPython `str` of a bool. -/
def pyBoolRepr (b : Bool) : String := if b then "True" else "False"

/-- CPython `str` of the document dict
(`\x7b` and `\x7d` are the braces), for field values that need no
escaping. -/
def pyDictStr (d : NougatDocument) : String :=
  "\x7b" ++ pyStrRepr "text" ++ ": " ++ pyStrRepr d.text ++ ", " ++
    pyStrRepr "last_page" ++ ": " ++ pyBoolRepr d.last_page ++ ", " ++
    pyStrRepr "parser" ++ ": " ++ pyStrRepr d.parser ++ "\x7d"

/-- The result-file content written by `parse_pdfs_in_batches`
(`src/adaparse/run.py` lines 130–133): for each document it writes
`f'{doc}\x5c\x5cn'` — `str` of the dict followed by a LITERAL backslash
and the letter `n` (the f-string escapes the backslash), not a newline.
`\x5c` is the backslash character. -/
def writeParsedResults (docs : List NougatDocument) : String :=
  String.join (docs.map fun d => pyDictStr d ++ "\x5cn")

/-- One dataloader batch as consumed by the inference loop of
`parse_pdfs_in_batches`: the model's predictions for the batch — or the
exception message its inference raised — together with the per-item
`is_last_page` flags.  The external model is opaque; only its outcome
matters. -/
structure InferenceBatch where
  inference : Except String (List String)
  is_last_page : List Bool
deriving Repr

/-- The inference loop (`run.py` lines 98–117): outputs of successful
batches are collected in order; a batch whose inference raises is
caught (`except Exception ... continue`) and contributes nothing. -/
def collectModelOutputs (batches : List InferenceBatch) :
    List (List String × List Bool) :=
  batches.filterMap fun b =>
    match b.inference with
    | .ok preds => some (preds, b.is_last_page)
    | .error _ => none

/-- Document assembly (`run.py` lines 121–128): one document per
`zip(model_output['predictions'], is_last_page)` pair of each collected
batch, in order, with `parser` fixed to `'nougat'`. -/
def buildDocuments (outs : List (List String × List Bool)) :
    List NougatDocument :=
  outs.flatMap fun mo => (mo.1.zip mo.2).map fun q => ⟨q.1, q.2, "nougat"⟩

/-- Filesystem effects of `parse_pdfs_in_batches`
(`src/adaparse/run.py`), in program order. -/
inductive RunEvent where
  | mkdirOutput
  | exportProfilerTrace (batch_idx : Nat)
  | writeResultsFile (content : String)
deriving DecidableEq, Repr

/-- The driver `parse_pdfs_in_batches` from `src/adaparse/run.py` as its trace of
filesystem effects.  `pdf_files` is the globbed `**/*.pdf` list; the
dataloader built by `create_dataloader` (`none` when no valid dataset
was created) yields `batches`.  With no PDFs the function returns
before creating the output directory; otherwise it creates the output
directory, exports one `profiler_batch_<i+1>.json` trace per successful
batch, and finally writes `parsed_results.jsonl` from the successful
batches' documents. -/
def parse_pdfs_in_batches (pdf_files : List String)
    (dataloader : Option (List InferenceBatch)) : List RunEvent :=
  if pdf_files.isEmpty then []
  else
    match dataloader with
    | none => [RunEvent.mkdirOutput]
    | some batches =>
      RunEvent.mkdirOutput ::
        ((batches.enum.filterMap fun q =>
            match q.2.inference with
            | .ok _ => some (RunEvent.exportProfilerTrace (q.1 + 1))
            | .error _ => none) ++
          [RunEvent.writeResultsFile
            (writeParsedResults (buildDocuments (collectModelOutputs batches)))])

/-- C10: when the directory holds no file matching `**/*.pdf`,
`parse_pdfs_in_batches` returns at once: no output directory is
created, no results file or profiler trace is written — its filesystem
effect trace is empty. -/
theorem no_pdfs_no_filesystem_effects
    (dataloader : Option (List InferenceBatch)) :
    parse_pdfs_in_batches [] dataloader = [] :=
  rfl

/-- C8: a batch whose model inference raises is caught and excluded —
the collected outputs are exactly those of the surrounding successful
batches, in order — and `parsed_results.jsonl` is still written: the
effect trace ends with the results-file write built from the successful
batches only. -/
theorem failing_batch_skipped (pdf_files : List String)
    (pre post : List InferenceBatch) (e : String) (flags : List Bool)
    (h : pdf_files ≠ []) :
    collectModelOutputs (pre ++ ⟨.error e, flags⟩ :: post) =
      collectModelOutputs pre ++ collectModelOutputs post ∧
    (parse_pdfs_in_batches pdf_files
        (some (pre ++ ⟨.error e, flags⟩ :: post))).getLast? =
      some (RunEvent.writeResultsFile
        (writeParsedResults (buildDocuments
          (collectModelOutputs pre ++ collectModelOutputs post)))) := by
  have hc : collectModelOutputs (pre ++ ⟨.error e, flags⟩ :: post) =
      collectModelOutputs pre ++ collectModelOutputs post := by
    unfold collectModelOutputs
    rw [List.filterMap_append]
    simp
  refine ⟨hc, ?_⟩
  have hunfold : parse_pdfs_in_batches pdf_files
      (some (pre ++ ⟨.error e, flags⟩ :: post)) =
      (RunEvent.mkdirOutput ::
        ((pre ++ ⟨.error e, flags⟩ :: post).enum.filterMap fun q =>
          match q.2.inference with
          | .ok _ => some (RunEvent.exportProfilerTrace (q.1 + 1))
          | .error _ => none)) ++
        [RunEvent.writeResultsFile
          (writeParsedResults (buildDocuments
            (collectModelOutputs (pre ++ ⟨.error e, flags⟩ :: post))))] := by
    unfold parse_pdfs_in_batches
    rw [if_neg (by simp [h])]
    rfl
  rw [hunfold, List.getLast?_concat, hc]


/-- C8 witness: the middle batch of three raises; both neighbours'
outputs are kept and the results file is still written. -/
theorem failing_batch_skipped_witness :
    (collectModelOutputs
        [⟨Except.ok ["t1"], [true]⟩, ⟨Except.error "CUDA error", [false]⟩,
         ⟨Except.ok ["t2"], [false]⟩] =
      collectModelOutputs [⟨Except.ok ["t1"], [true]⟩] ++
        collectModelOutputs [⟨Except.ok ["t2"], [false]⟩]) ∧
    (parse_pdfs_in_batches ["doc.pdf"]
        (some [⟨Except.ok ["t1"], [true]⟩, ⟨Except.error "CUDA error", [false]⟩,
               ⟨Except.ok ["t2"], [false]⟩])).getLast? =
      some (RunEvent.writeResultsFile
        (writeParsedResults (buildDocuments
          (collectModelOutputs [⟨Except.ok ["t1"], [true]⟩] ++
            collectModelOutputs [⟨Except.ok ["t2"], [false]⟩])))) :=
  failing_batch_skipped ["doc.pdf"] [⟨Except.ok ["t1"], [true]⟩]
    [⟨Except.ok ["t2"], [false]⟩] "CUDA error" [false] (by decide)

/-- C5, evaluated at a failing input: one successful batch of two
parsed documents.  `parse_pdfs_in_batches` ends by writing the results
file, whose content is the Python dict `str` of each document followed
by a literal backslash and `n` — it contains no newline character at
all, so with two records the file is a single physical line; the
records are not each on their own line, and are not JSON. -/
theorem parsed_results_not_json_lines :
    buildDocuments (collectModelOutputs
        [⟨Except.ok ["alpha", "beta"], [false, true]⟩]) =
      [⟨"alpha", false, "nougat"⟩, ⟨"beta", true, "nougat"⟩] ∧
    (parse_pdfs_in_batches ["doc.pdf"]
        (some [⟨Except.ok ["alpha", "beta"], [false, true]⟩])).getLast? =
      some (RunEvent.writeResultsFile (writeParsedResults
        [⟨"alpha", false, "nougat"⟩, ⟨"beta", true, "nougat"⟩])) ∧
    writeParsedResults [⟨"alpha", false, "nougat"⟩, ⟨"beta", true, "nougat"⟩] =
      "\x7b\x27text\x27: \x27alpha\x27, \x27last_page\x27: False, " ++
        "\x27parser\x27: \x27nougat\x27\x7d\x5cn" ++
        "\x7b\x27text\x27: \x27beta\x27, \x27last_page\x27: True, " ++
        "\x27parser\x27: \x27nougat\x27\x7d\x5cn" ∧
    (writeParsedResults
        [⟨"alpha", false, "nougat"⟩,
         ⟨"beta", true, "nougat"⟩]).toList.count '\x0a' = 0 := by
  refine ⟨rfl, rfl, ?_, by decide⟩
  decide

end RunPy

end AdaParse
